import Mathlib

/-!
Verification of the nutri-uber core (constraint extraction, filter/scorer,
deduplicating ranker, basket composer, nutrition resolver, result cache)
against its natural-language specification.

The Python sources are shallowly embedded: strings are lists of characters
(`Str`), Python `str.lower` is modelled by ASCII case folding (matching
`Char.toLower`; the sources only rely on folding of basic latin letters),
Python `str.strip` by dropping leading/trailing whitespace, the substring
test `a in b` by `containsSub`, floats by rationals with round-half-to-even
at a given number of decimals, and the file-backed cache by an explicit
association list from key strings to stored files.
-/

/-! ## Strings -/

abbrev Str : Type := List Char

/-- Turn a Lean string literal into the `Str` model. -/
def S (s : String) : Str := s.data

/-- Python `str.lower`, restricted to basic latin letters. -/
def lowerStr (s : Str) : Str := s.map Char.toLower

/-- Drop leading whitespace (left part of Python `str.strip`). -/
def lstrip (s : Str) : Str := s.dropWhile Char.isWhitespace

/-- Drop trailing whitespace (right part of Python `str.strip`),
structurally recursive formulation. -/
def rstrip : Str → Str
  | [] => []
  | c :: rest =>
    match rstrip rest with
    | [] => if c.isWhitespace then [] else [c]
    | r :: rs => c :: r :: rs

/-- Python `str.strip`. -/
def trim (s : Str) : Str := rstrip (lstrip s)

/-- Does `w` start the list `s`? (Bool-valued prefix test.) -/
def startsWithB : Str → Str → Bool
  | [], _ => true
  | _ :: _, [] => false
  | a :: as, b :: bs => a == b && startsWithB as bs

/-- Python substring containment `needle in hay`. -/
def containsSub (needle : Str) : Str → Bool
  | [] => startsWithB needle []
  | c :: rest => startsWithB needle (c :: rest) || containsSub needle rest

/-- One step of splitting on a separator set: `re.split(r"[,;]", s)`. -/
def splitCS (s : Str) : List Str :=
  let step := fun (acc : List Str × Str) (c : Char) =>
    if c = ',' ∨ c = ';' then (acc.1 ++ [acc.2.reverse], []) else (acc.1, c :: acc.2)
  let r := s.foldl step ([], [])
  r.1 ++ [r.2.reverse]

/-- Python `" + ".join(names)` (used on a non-empty list in the source). -/
def joinPlus : List Str → Str
  | [] => []
  | [x] => x
  | x :: y :: ys => x ++ S " + " ++ joinPlus (y :: ys)

/-- Python `" ".join(parts)`. -/
def joinSpace : List Str → Str
  | [] => []
  | [x] => x
  | x :: y :: ys => x ++ S " " ++ joinSpace (y :: ys)

/-! ## Rounding

Python `round(x, d)` on the rational model: round half to even at `d`
decimal digits. -/

/-- Round half to even to the nearest integer. -/
def rhe (q : ℚ) : ℤ :=
  let f : ℤ := ⌊q⌋
  let r : ℚ := q - f
  if r < 1/2 then f
  else if 1/2 < r then f + 1
  else if f % 2 = 0 then f else f + 1

/-- Python `round(q, d)`. -/
def roundQ (q : ℚ) (d : ℕ) : ℚ := (rhe (q * (10 : ℚ) ^ d) : ℚ) / (10 : ℚ) ^ d

/-! ## Constraint extractor (`food_finder.py`, `extract_dietary_constraints`)

A dietary field of a patient record is either a free-text string, a
structured dict `{"list": [...], "details": "..."}`, or something else
(`None`, a missing field, ...), modelled by `PyVal`.  The record fields not
read by `extract_dietary_constraints` (and `dee_goal` /
`macronutrient_distribution_in_grams`, which are only copied by reference,
never written) are omitted from the model. -/

inductive PyVal : Type where
  | vStr (s : Str)
  | vDict (lst : List Str) (details : Str)
  | vNone
deriving DecidableEq

/-- The dietary/medical fields of a patient record that
`extract_dietary_constraints` reads. -/
structure Patient : Type where
  food_allergies : PyVal
  food_intolerances : PyVal
  disliked_foods : PyVal
  favorite_foods : PyVal
  diet_types : PyVal
  medications : PyVal
deriving DecidableEq

/-- The normalized constraint set built by `extract_dietary_constraints`. -/
structure Constraints : Type where
  allergies : List Str
  intolerances : List Str
  disliked : List Str
  favorites : List Str
  diet_types : List Str
  medications : Str
deriving DecidableEq

/-- The sentinel strings against which a stripped, lower-cased details
string is compared: `("não tem", "nenhum", "none", "—", "n/a", "nenhuma")`. -/
def noneSentinels : List Str :=
  [S "não tem", S "nenhum", S "none", S "—", S "n/a", S "nenhuma"]

/-- Python truthiness of a `PyVal` (a dict value is treated as truthy; an
empty dict behaves identically to a falsy one under `safe_list`). -/
def pyTruthy : PyVal → Bool
  | .vStr s => !s.isEmpty
  | .vDict _ _ => true
  | .vNone => false

/-- `safe_list` from `extract_dietary_constraints`.  Besides the resulting
list of entries it returns the field value as it is left after the call:
in the dict case the source appends the split details parts into the very
list object stored in the record (`lst = val.get("list", []) or []` aliases
it whenever it is non-empty), so a non-empty stored list is mutated. -/
def safe_list (v : PyVal) : List Str × PyVal :=
  match v with
  | .vDict lst details =>
    let d := trim details
    let parts :=
      if d ≠ [] ∧ lowerStr d ∉ noneSentinels then
        ((splitCS d).map trim).filter (fun p => p ≠ [])
      else []
    let lst2 := lst ++ parts
    let after := if lst ≠ [] then PyVal.vDict lst2 details else PyVal.vDict lst details
    ((lst2.filter (fun p => p ≠ [])).map (fun p => lowerStr (trim p)), after)
  | .vStr s =>
    (((splitCS s).filter (fun p => trim p ≠ [])).map (fun p => lowerStr (trim p)), .vStr s)
  | .vNone => ([], .vNone)

/-- `safe_str` from `extract_dietary_constraints`. -/
def safe_str : PyVal → Str
  | .vDict _ details => trim details
  | .vStr s => trim s
  | .vNone => trim []

/-- `extract_dietary_constraints`: returns the constraint set together with
the patient record as it is left after the call (the source mutates the
record through `safe_list`; see above). -/
def extract_dietary_constraints (p : Patient) : Constraints × Patient :=
  let ra := safe_list p.food_allergies
  let ri := safe_list p.food_intolerances
  let rd := if pyTruthy p.disliked_foods then safe_list p.disliked_foods
            else ([], p.disliked_foods)
  let rf := if pyTruthy p.favorite_foods then safe_list p.favorite_foods
            else ([], p.favorite_foods)
  let rt := safe_list p.diet_types
  ({ allergies := ra.1, intolerances := ri.1, disliked := rd.1, favorites := rf.1,
     diet_types := rt.1, medications := safe_str p.medications },
   { food_allergies := ra.2, food_intolerances := ri.2, disliked_foods := rd.2,
     favorite_foods := rf.2, diet_types := rt.2, medications := p.medications })

/-- All entries of the five constraint lists, for stating list-entry
invariants. -/
def allEntries (c : Constraints) : List Str :=
  c.allergies ++ c.intolerances ++ c.disliked ++ c.favorites ++ c.diet_types

/-! ## Candidate items, filter (`food_finder.py`), API drink filter (`api.py`)

A candidate item dict; a missing or `None` string field behaves as the
empty string in the source (`item.get("name") or ""`), so string fields are
total here.  `score` is the fitness score the pipeline stores on every item
before ranking and composing. -/

structure Item : Type where
  name : Str
  description : Str
  restaurant : Str
  basket_role : Str
  score : ℚ
deriving DecidableEq

/-- The fixed bilingual drink lexicon of `_is_drink`. -/
def drink_kw : List Str :=
  [S "café", S "coffee", S "chá", S "tea", S "sumo", S "juice", S "refrigerante",
   S "soda", S "cola", S "coca",
   S "cerveja", S "beer", S "wine", S "vinho", S "água", S "water", S "smoothie",
   S "leite", S "milk",
   S "bebida", S "drink", S "sprite", S "fanta", S "red bull", S "energético",
   S "energy drink",
   S "mocktail", S "cocktail", S "sangria", S "limonada", S "lemonade",
   S "ice tea", S "chá gelado",
   S "expresso", S "espresso", S "cappuccino", S "latte", S "mocha",
   S "água com gás", S "sparkling",
   S "sumo de", S "juice of", S "copo de", S "glass of", S "garrafa de",
   S "bottle of"]

/-- `_is_drink(name, description)`: the combined text is
`f"{name.strip()} {description.strip()}".lower()`. -/
def is_drink (name description : Str) : Bool :=
  drink_kw.any (fun kw => containsSub kw (lowerStr (trim name ++ S " " ++ trim description)))

/-- The combined text `filter_menu_item` checks its keyword rules against:
`f"{name.strip()} {description.strip()}".lower()`. -/
def combinedText (item : Item) : Str :=
  lowerStr (trim item.name ++ S " " ++ trim item.description)

/-- `filter_menu_item(item, constraints) -> (passes, reason)`.  The Python
`for`/`return` loops over allergens+intolerances and over dislikes are the
first-match searches below; an empty (falsy) term is skipped. -/
def filter_menu_item (item : Item) (c : Constraints) : Bool × Str :=
  let combined := combinedText item
  if is_drink item.name item.description then (false, S "Drink (excluded)")
  else
    match (c.allergies ++ c.intolerances).find?
        (fun a => !a.isEmpty && containsSub a combined) with
    | some a => (false, S "Contains allergen/intolerance: " ++ a)
    | none =>
      match c.disliked.find? (fun d => !d.isEmpty && containsSub d combined) with
      | some d => (false, S "Contains disliked food: " ++ d)
      | none => (true, S "OK")

/-- `_filter_drinks` from `api.py`: drops items tagged
`basket_role == "drink"` and items whose text classifies as a drink. -/
def filter_drinks (items : List Item) : List Item :=
  items.filter (fun i => !(i.basket_role == S "drink") && !is_drink i.name i.description)

/-! ## Deduplicating ranker (`find_food_for_patient`, tail of the pipeline)

`sorted(all_items, key=lambda i: i["score"], reverse=True)` is a stable
descending sort by score; any stable sort realizes it, here `mergeSort`
with `leScore`. -/

/-- Descending-by-score comparison; ties compare true both ways, so the
stable `mergeSort` preserves merge order on ties exactly as Python does. -/
def leScore (a b : Item) : Bool := decide (b.score ≤ a.score)

/-- The dedup identity `(name.strip().lower(), restaurant.strip().lower())`. -/
def keyNR (x : Item) : Str × Str :=
  (lowerStr (trim x.name), lowerStr (trim x.restaurant))

/-- The dedup loop of `find_food_for_patient`: keep the first occurrence of
each identity, dropping items whose trimmed name is shorter than 3
characters. -/
def dedupPass : List (Str × Str) → List Item → List Item
  | _, [] => []
  | seen, x :: xs =>
    if keyNR x ∈ seen ∨ (keyNR x).1.length < 3 then dedupPass seen xs
    else x :: dedupPass (keyNR x :: seen) xs

/-- The deduplicating ranker (`food_finder.py` lines 1381-1394): stable
sort by descending score, then dedup by `(name, restaurant)` identity. -/
def rank_items (items : List Item) : List Item :=
  dedupPass [] (items.mergeSort leScore)

/-! ## Basket composer (`compose_healthy_basket`) -/

/-- `BASKET_MEAL_STRUCTURE`. -/
def basket_meal_structure (category : Str) : List Str :=
  if category = S "protein" then
    [S "frango", S "chicken", S "peixe", S "fish", S "carne", S "meat", S "ovo",
     S "egg", S "atum", S "tuna", S "peru", S "turkey", S "tofu", S "grilled",
     S "grelhado"]
  else if category = S "carbohydrate" then
    [S "arroz", S "rice", S "batata", S "potato", S "massa", S "pasta", S "pão",
     S "bread", S "quinoa", S "integral", S "whole"]
  else if category = S "vegetable" then
    [S "salada", S "salad", S "vegetal", S "vegetable", S "legumes", S "sopa",
     S "soup", S "brócolos", S "broccoli", S "espinafre", S "spinach"]
  else if category = S "fruit" then
    [S "fruta", S "fruit", S "maçã", S "apple", S "banana", S "laranja", S "orange"]
  else if category = S "drink" then
    [S "água", S "water", S "sumo", S "juice", S "chá", S "tea", S "leite", S "milk"]
  else []

/-- `_item_matches_category`: keyword containment in
`f"{name.lower()} {description.lower()}"` (no stripping here). -/
def item_matches_category (i : Item) (keywords : List Str) : Bool :=
  keywords.any (fun kw => containsSub kw (lowerStr i.name ++ S " " ++ lowerStr i.description))

/-- The used-name key of the composer: `(i.get("name") or "").strip().lower()`. -/
def itemKey (i : Item) : Str := lowerStr (trim i.name)

/-- `{**item, "basket_role": role}`. -/
def withRole (x : Item) (r : Str) : Item := { x with basket_role := r }

/-- `pick_one(category)` of `compose_healthy_basket`, with the `used_names`
set passed and returned explicitly.  The in-place stable descending sort of
`candidates` followed by `candidates[0]` is `(mergeSort leScore).head?`. -/
def pick_one (items : List Item) (used : List Str) (category : Str) :
    Option Item × List Str :=
  match ((items.filter (fun i => item_matches_category i (basket_meal_structure category)
      && !(decide (itemKey i ∈ used)))).mergeSort leScore).head? with
  | none => (none, used)
  | some chosen => (some chosen, itemKey chosen :: used)

/-- The top-up loop of `compose_healthy_basket` (entered when fewer than 3
items were composed): walk the pool sorted by descending score, appending
unused, non-empty-named items as role `extra` until `max_items`. -/
def topUp : List Str → List Item → ℕ → List Item → List Item × List Str
  | used, basket, _, [] => (basket, used)
  | used, basket, max_items, x :: xs =>
    if max_items ≤ basket.length then (basket, used)
    else if itemKey x ≠ [] ∧ itemKey x ∉ used then
      topUp (itemKey x :: used) (basket ++ [withRole x (S "extra")]) max_items xs
    else topUp used basket max_items xs

/-- One role-filling step of `compose_healthy_basket`: pick a candidate for
`category`; on success append it to the basket tagged with `role`. -/
def roleStep (items : List Item) (st : List Item × List Str) (category role : Str) :
    List Item × List Str :=
  match pick_one items st.2 category with
  | (some x, u) => (st.1 ++ [withRole x role], u)
  | (none, u) => (st.1, u)

/-- Steps 1-3 of `compose_healthy_basket`: protein, carbohydrate,
vegetable. -/
def composeStage123 (items : List Item) : List Item × List Str :=
  roleStep items
    (roleStep items (roleStep items ([], []) (S "protein") (S "protein"))
      (S "carbohydrate") (S "carbohydrate"))
    (S "vegetable") (S "vegetable")

/-- Step 4: `pick_one("vegetable") or pick_one("fruit")` — the failed
vegetable pick leaves `used_names` unchanged, then the fruit pick runs. -/
def vegOrFruitPick (items : List Item) (used : List Str) : Option Item × List Str :=
  match pick_one items used (S "vegetable") with
  | (some x, u) => (some x, u)
  | (none, u) => pick_one items u (S "fruit")

/-- Basket and used set after step 4 (`if v2 and len(basket) < max_items`). -/
def composeStage4 (items : List Item) (max_items : ℕ) : List Item × List Str :=
  match vegOrFruitPick items (composeStage123 items).2 with
  | (some x, u) =>
    (if (composeStage123 items).1.length < max_items then
       (composeStage123 items).1 ++ [withRole x (S "vegetable_or_fruit")]
     else (composeStage123 items).1, u)
  | (none, u) => ((composeStage123 items).1, u)

/-- `compose_healthy_basket(items, constraints, max_items)`.  The
`constraints` parameter is accepted but never read by the source body;
when fewer than 3 items were composed, the top-up loop runs over the pool
sorted by descending score. -/
def compose_healthy_basket (items : List Item) (_constraints : Constraints)
    (max_items : ℕ) : List Item :=
  if (composeStage4 items max_items).1.length < 3 then
    (topUp (composeStage4 items max_items).2 (composeStage4 items max_items).1
      max_items (items.mergeSort leScore)).1
  else (composeStage4 items max_items).1

/-! ## Nutrition resolver (`nutrition_local_db.py`)

The three regular expressions of `_extract_ingredients` are executed by
explicit scanners.  Python word characters (`\w` under `re`) are
approximated by ASCII alphanumerics plus underscore; the functions that
consume a data-dependent amount of input carry a fuel argument
(`length s + 1` always suffices, one character is consumed per step) so
that they stay structurally recursive and kernel-evaluable. -/

/-- A per-100g food table row (`foods` in `food_database.json`). -/
structure Food : Type where
  name : Str
  keywords : List Str
  energy_kcal_100g : ℚ
  proteins_100g : ℚ
  fat_100g : ℚ
  carbohydrates_100g : ℚ
  fiber_100g : ℚ
deriving DecidableEq

/-- The averaged per-100g profile returned by `get_nutrition_per_100g`. -/
structure Per100 : Type where
  energy_kcal_100g : ℚ
  proteins_100g : ℚ
  fat_100g : ℚ
  carbohydrates_100g : ℚ
  fiber_100g : ℚ
  product_name : Str
deriving DecidableEq

/-- A known-dish row (`known_dishes` in `food_database.json`); a missing
`product_name` falls back to the queried name. -/
structure Dish : Type where
  keywords : List Str
  match_all : Bool
  product_name : Option Str
  energy_kcal : ℚ
  protein : ℚ
  carbohydrate : ℚ
  fat : ℚ
  fiber : ℚ
deriving DecidableEq

/-- The `nutriments` payload of a serving-level result. -/
structure Nutriments : Type where
  energy_kcal : ℚ
  protein : ℚ
  carbohydrate : ℚ
  fat : ℚ
  fiber : ℚ
deriving DecidableEq

/-- A serving-level result of `get_nutrition_for_serving`. -/
structure ServingResult : Type where
  product_name : Str
  nutriments : Nutriments
  source : Str
deriving DecidableEq

/-- ASCII approximation of a regex word character. -/
def isWordChar (c : Char) : Bool := c.isAlphanum || c == '_'

/-- `re.sub(r"^\d+\.?\s*", "", s)`: strip a leading run of digits, an
optional dot, and following whitespace. -/
def stripLeadingNum (s : Str) : Str :=
  match s with
  | [] => []
  | c :: _ =>
    if c.isDigit then
      let r1 := s.dropWhile Char.isDigit
      let r2 := match r1 with
        | '.' :: r => r
        | _ => r1
      r2.dropWhile Char.isWhitespace
    else s

/-- Drop everything through the first `')'`; `none` when there is none. -/
def dropToClose : Str → Option Str
  | [] => none
  | ')' :: r => some r
  | _ :: r => dropToClose r

/-- `re.sub(r"\s*\(.*?\)", "", s)` with fuel: remove every non-greedy
parenthetical together with the whitespace run in front of it. -/
def removeParensFuel : ℕ → Str → Str
  | 0, s => s
  | fuel + 1, s =>
    match s with
    | [] => []
    | c :: rest =>
      if c = '(' then
        match dropToClose rest with
        | some r => removeParensFuel fuel r
        | none => c :: removeParensFuel fuel rest
      else if c.isWhitespace then
        let run := (c :: rest).takeWhile Char.isWhitespace
        let after := (c :: rest).dropWhile Char.isWhitespace
        match after with
        | '(' :: r2 =>
          (match dropToClose r2 with
           | some r3 => removeParensFuel fuel r3
           | none => run ++ removeParensFuel fuel after)
        | _ => run ++ removeParensFuel fuel after
      else c :: removeParensFuel fuel rest

def removeParens (s : Str) : Str := removeParensFuel (s.length + 1) s

/-- Is the next character absent or a non-word character (the `\b` test
after a match)? -/
def boundaryAfterB : Str → Bool
  | [] => true
  | c :: _ => !isWordChar c

/-- `re.sub(r"\b" + w + r"\b", "", s)` with fuel, for a word `w` made of
word characters (every stop word is): `prevW` tracks whether the previous
original character was a word character. -/
def removeWordFuel (w : Str) : ℕ → Bool → Str → Str
  | 0, _, s => s
  | _ + 1, _, [] => []
  | fuel + 1, prevW, c :: rest =>
    if 0 < w.length ∧ !prevW ∧ startsWithB w (c :: rest) ∧
        boundaryAfterB ((c :: rest).drop w.length) then
      removeWordFuel w fuel true ((c :: rest).drop w.length)
    else c :: removeWordFuel w fuel (isWordChar c) rest

def removeWord (w : Str) (s : Str) : Str := removeWordFuel w (s.length + 1) false s

/-- The stop-word list of `_extract_ingredients`. -/
def stop_words : List Str :=
  [S "delicioso", S "caseiro", S "fresco", S "tradicional", S "da casa",
   S "especial", S "grelhado", S "frito", S "assado", S "no forno", S "molho",
   S "com"]

/-- The split connectors of `re.split(r",|\s+(?:e|com|plus|\+|&)\s+", s)`,
in alternation order. -/
def connectors : List Str := [S "e", S "com", S "plus", S "+", S "&"]

/-- Try to match `\s+(?:e|com|plus|\+|&)\s+` at the start of `s`; on success
return the remainder after the (greedy) trailing whitespace.  Because no
connector starts with whitespace, the leading `\s+` is forced to consume the
whole whitespace run. -/
def matchConnAt (s : Str) : Option Str :=
  let run := s.takeWhile Char.isWhitespace
  let after := s.dropWhile Char.isWhitespace
  if run.isEmpty then none
  else
    match connectors.find?
        (fun cn => !cn.isEmpty && startsWithB cn after &&
          (match after.drop cn.length with
           | c :: _ => c.isWhitespace
           | [] => false)) with
    | some cn => some ((after.drop cn.length).dropWhile Char.isWhitespace)
    | none => none

/-- `re.split(r",|\s+(?:e|com|plus|\+|&)\s+", s)` with fuel; `cur` holds the
current piece reversed. -/
def splitConjFuel : ℕ → Str → Str → List Str
  | 0, cur, _ => [cur.reverse]
  | _ + 1, cur, [] => [cur.reverse]
  | fuel + 1, cur, c :: rest =>
    if c = ',' then cur.reverse :: splitConjFuel fuel [] rest
    else if c.isWhitespace then
      match matchConnAt (c :: rest) with
      | some rem => cur.reverse :: splitConjFuel fuel [] rem
      | none => splitConjFuel fuel (c :: cur) rest
    else splitConjFuel fuel (c :: cur) rest

def splitConj (s : Str) : List Str := splitConjFuel (s.length + 1) [] s

/-- `_extract_ingredients(name)`. -/
def extract_ingredients (name : Str) : List Str :=
  let cleaned := lowerStr name
  let cleaned := stripLeadingNum cleaned
  let cleaned := removeParens cleaned
  let cleaned := stop_words.foldl (fun acc w => removeWord w acc) cleaned
  ((splitConj cleaned).map trim).filter (fun p => 2 < p.length)

/-- `_find_in_local_db(query, db)`: exact lower-cased name match first, then
first row one of whose keywords occurs in the query. -/
def find_in_local_db (query : Str) (db : List Food) : Option Food :=
  let ql := lowerStr query
  match db.find? (fun food => lowerStr food.name == ql) with
  | some food => some food
  | none => db.find? (fun food => food.keywords.any (fun kw => containsSub kw ql))

/-- The ingredient tokens `get_nutrition_per_100g` resolves: the extracted
tokens, or the whole original name when extraction yields nothing. -/
def resolvedIngredients (name : Str) : List Str :=
  let ings := extract_ingredients name
  if ings.isEmpty then [name] else ings

/-- The matched database rows, one per token that matched. -/
def matchResults (name : Str) (db : List Food) : List Food :=
  (resolvedIngredients name).filterMap (fun ing => find_in_local_db ing db)

/-- Arithmetic mean, rounded to 2 decimals (`round(sum(vals)/len(vals), 2)`). -/
def avg2 (vals : List ℚ) : ℚ := roundQ ((vals.foldl (· + ·) 0) / vals.length) 2

/-- `get_nutrition_per_100g(original_name, db)`. -/
def get_nutrition_per_100g (name : Str) (db : List Food) : Option Per100 :=
  if db.isEmpty then none
  else if (matchResults name db).isEmpty then none
  else if 1 < (resolvedIngredients name).length ∧ (matchResults name db).length = 1 ∧
      (((matchResults name db).head?.map (fun r => r.energy_kcal_100g)).getD 0) < 80 then
    none
  else some
    { energy_kcal_100g := avg2 ((matchResults name db).map (fun r => r.energy_kcal_100g)),
      proteins_100g := avg2 ((matchResults name db).map (fun r => r.proteins_100g)),
      fat_100g := avg2 ((matchResults name db).map (fun r => r.fat_100g)),
      carbohydrates_100g := avg2 ((matchResults name db).map (fun r => r.carbohydrates_100g)),
      fiber_100g := avg2 ((matchResults name db).map (fun r => r.fiber_100g)),
      product_name := joinPlus ((matchResults name db).map (fun r => r.name)) }

/-- The search text of the known-dish scan:
`" ".join(filter(None, [original_name, restaurant])).lower()`. -/
def searchText (name : Str) (restaurant : Option Str) : Str :=
  lowerStr (joinSpace (([name] ++
    (match restaurant with | some r => [r] | none => [])).filter (fun s => s ≠ [])))

/-- Does a dish row match the search text (`match_all` versus any)?  A dish
with no keywords is skipped. -/
def dishMatches (d : Dish) (st : Str) : Bool :=
  !d.keywords.isEmpty &&
    (if d.match_all then d.keywords.all (fun kw => containsSub kw st)
     else d.keywords.any (fun kw => containsSub kw st))

/-- `get_nutrition_for_serving(original_name, serving_g, db, restaurant)`;
the known-dish table (loaded from the database file in the source) is an
explicit argument. -/
def get_nutrition_for_serving (name : Str) (serving_g : ℚ) (db : List Food)
    (restaurant : Option Str) (dishes : List Dish) : Option ServingResult :=
  match dishes.find? (fun d => dishMatches d (searchText name restaurant)) with
  | some d => some
      { product_name := d.product_name.getD name,
        nutriments :=
          { energy_kcal := d.energy_kcal, protein := d.protein,
            carbohydrate := d.carbohydrate, fat := d.fat, fiber := d.fiber },
        source := S "local_db" }
  | none =>
    match get_nutrition_per_100g name db with
    | none => none
    | some p => some
        { product_name := p.product_name,
          nutriments :=
            { energy_kcal := roundQ (p.energy_kcal_100g * (serving_g / 100)) 0,
              protein := roundQ (p.proteins_100g * (serving_g / 100)) 1,
              carbohydrate := roundQ (p.carbohydrates_100g * (serving_g / 100)) 1,
              fat := roundQ (p.fat_100g * (serving_g / 100)) 1,
              fiber := roundQ (p.fiber_100g * (serving_g / 100)) 1 },
          source := S "local_db" }

/-! ## Result cache (`cache.py`)

The stored key is `sha256(key_string)[:32]`, a pure function of the key
string `f"{patient_id or 'unknown'}_{city}{suffix}"`; the model keys the
store by the key string itself, so key equality in the model is exactly
equality of the hash inputs.  The file store is an association list from
key strings to stored files; a file that fails to parse is `malformed`. -/

inductive PatientId : Type where
  | pid_str (s : Str)
  | pid_int (n : ℤ)
  | pid_none
deriving DecidableEq

/-- Python truthiness of `patient_id`. -/
def pidTruthy : PatientId → Bool
  | .pid_str s => !s.isEmpty
  | .pid_int n => decide (n ≠ 0)
  | .pid_none => false

/-- `f"{patient_id}"`. -/
def pidRepr : PatientId → Str
  | .pid_str s => s
  | .pid_int n => (toString n).data
  | .pid_none => S "None"

/-- The hash input of `_cache_key`: `f"{patient_id or 'unknown'}_{city}{suffix}"`. -/
def cacheKeyString (pid : PatientId) (city suffix : Str) : Str :=
  (if pidTruthy pid then pidRepr pid else S "unknown") ++ S "_" ++ city ++ suffix

/-- A parsed cache file as written by `cache.set`. -/
structure CacheEntry : Type where
  patient : Str
  count : ℕ
  items : List Item
  cached_at : ℚ
  from_cache : Bool
deriving DecidableEq

/-- A stored cache file: parseable or malformed. -/
inductive StoredFile : Type where
  | valid (e : CacheEntry)
  | malformed
deriving DecidableEq

/-- The cache directory: key string to stored file. -/
abbrev CacheState : Type := List (Str × StoredFile)

def lookupC (st : CacheState) (k : Str) : Option StoredFile :=
  (st.find? (fun p => p.1 == k)).map (fun p => p.2)

def eraseC (st : CacheState) (k : Str) : CacheState :=
  st.filter (fun p => !(p.1 == k))

def insertC (st : CacheState) (k : Str) (v : StoredFile) : CacheState :=
  eraseC st k ++ [(k, v)]

/-- `TTL_HOURS * 3600`. -/
def ttlSeconds : ℚ := 6 * 3600

/-- `cache.get(patient_id, city, suffix)` at read time `now`: returns the
entry (if present, parseable and fresh) and the store as left afterwards
(expired and malformed files are deleted). -/
def cache_get (st : CacheState) (pid : PatientId) (city suffix : Str) (now : ℚ) :
    Option CacheEntry × CacheState :=
  match lookupC st (cacheKeyString pid city suffix) with
  | none => (none, st)
  | some .malformed => (none, eraseC st (cacheKeyString pid city suffix))
  | some (.valid e) =>
    if ttlSeconds < now - e.cached_at then
      (none, eraseC st (cacheKeyString pid city suffix))
    else (some e, st)

/-- `cache.set(patient_id, city, patient_name, items, suffix)` at write
time `now`. -/
def cache_set (st : CacheState) (pid : PatientId) (city : Str)
    (patient_name : Str) (items : List Item) (suffix : Str) (now : ℚ) : CacheState :=
  insertC st (cacheKeyString pid city suffix)
    (.valid { patient := patient_name, count := items.length, items := items,
              cached_at := now, from_cache := true })

/-! ## Auxiliary predicates and concrete instances used by the theorems -/

/-- No entry of a structured list field is a non-empty whitespace-only
string (the proviso under which the constraint-set entries are non-empty). -/
def blankFreeValB : PyVal → Bool
  | .vDict lst _ => lst.all (fun e => e.isEmpty || !(trim e).isEmpty)
  | _ => true

def blankFreeB (p : Patient) : Bool :=
  blankFreeValB p.food_allergies && blankFreeValB p.food_intolerances &&
  blankFreeValB p.disliked_foods && blankFreeValB p.favorite_foods &&
  blankFreeValB p.diet_types

/-- A patient whose allergies field holds a list and a free-text details
string: the source appends the details parts into the stored list. -/
def pMut : Patient :=
  { food_allergies := .vDict [S "leite"] (S "ovos"), food_intolerances := .vNone,
    disliked_foods := .vNone, favorite_foods := .vNone, diet_types := .vNone,
    medications := .vNone }

/-- A patient whose allergies list holds a whitespace-only entry. -/
def pBlank : Patient :=
  { food_allergies := .vDict [S " "] [], food_intolerances := .vNone,
    disliked_foods := .vNone, favorite_foods := .vNone, diet_types := .vNone,
    medications := .vNone }

/-- A well-formed patient record for witnesses. -/
def pGood : Patient :=
  { food_allergies := .vDict [S "Leite"] (S "Ovos, Soja"),
    food_intolerances := .vStr (S "Lactose"), disliked_foods := .vStr (S "Atum"),
    favorite_foods := .vNone, diet_types := .vDict [] (S "None"),
    medications := .vStr (S "nenhum") }

/-- A nut cake, for the allergen veto witness. -/
def itemNozes : Item :=
  { name := S "Bolo de nozes", description := S "com cobertura", restaurant := S "R",
    basket_role := [], score := 50 }

def consNozes : Constraints :=
  { allergies := [S "nozes"], intolerances := [], disliked := [S "bolo"],
    favorites := [], diet_types := [], medications := [] }

/-- An item tagged `basket_role == "drink"` whose text contains no drink
lexicon word. -/
def itemTofu : Item :=
  { name := S "tofu", description := [], restaurant := S "R",
    basket_role := S "drink", score := 50 }

/-- A soda, classified as a drink by text. -/
def itemCola : Item :=
  { name := S "Coca Cola", description := [], restaurant := S "R",
    basket_role := [], score := 50 }

def consEmpty : Constraints :=
  { allergies := [], intolerances := [], disliked := [], favorites := [],
    diet_types := [], medications := [] }

/-- A one-row per-100g table whose averaged energy is not a whole number. -/
def dbArroz : List Food :=
  [{ name := S "arroz", keywords := [S "arroz"], energy_kcal_100g := 652/5,
     proteins_100g := 5/2, fat_100g := 3/10, carbohydrates_100g := 141/5,
     fiber_100g := 2/5 }]

/-- A low-calorie salad row (whole-number nutrient values). -/
def foodSalada : Food :=
  { name := S "salada", keywords := [S "salada"], energy_kcal_100g := 25,
    proteins_100g := 1, fat_100g := 0, carbohydrates_100g := 3,
    fiber_100g := 1 }

/-- A table holding only the low-calorie salad row. -/
def dbSalada : List Food := [foodSalada]

/-! # Lemmas and claim theorems -/

/-! ## Cache store lemmas -/

theorem lookupC_insertC_self (st : CacheState) (k : Str) (v : StoredFile) :
    lookupC (insertC st k v) k = some v := by
  unfold lookupC insertC eraseC
  rw [List.find?_append]
  have h1 : (st.filter (fun p => !(p.1 == k))).find? (fun p => p.1 == k) = none := by
    rw [List.find?_eq_none]
    intro x hx
    have hx2 := (List.mem_filter.mp hx).2
    simp at hx2 ⊢
    exact hx2
  rw [h1]
  simp [List.find?]

theorem lookupC_eraseC_self (st : CacheState) (k : Str) :
    lookupC (eraseC st k) k = none := by
  unfold lookupC eraseC
  have h1 : (st.filter (fun p => !(p.1 == k))).find? (fun p => p.1 == k) = none := by
    rw [List.find?_eq_none]
    intro x hx
    have hx2 := (List.mem_filter.mp hx).2
    simp at hx2 ⊢
    exact hx2
  rw [h1]
  rfl

theorem cache_get_after_set (st : CacheState) (pid pid' : PatientId)
    (city suffix city' suffix' nm : Str) (items : List Item) (T t : ℚ)
    (hk : cacheKeyString pid' city' suffix' = cacheKeyString pid city suffix)
    (ht : t - T ≤ ttlSeconds) :
    cache_get (cache_set st pid city nm items suffix T) pid' city' suffix' t =
      (some { patient := nm, count := items.length, items := items,
              cached_at := T, from_cache := true },
       cache_set st pid city nm items suffix T) := by
  simp only [cache_get, cache_set, hk, lookupC_insertC_self]
  rw [if_neg (show ¬ ttlSeconds < t - T by linarith)]

/-- C7: an entry written at time `T` is returned by `cache.get` at any
read time strictly before `T` + 6 hours; at any read time strictly after
`T` + 6 hours it is reported absent and the stored entry is purged; a
malformed stored file is likewise reported absent and deleted. -/
theorem cache_ttl_boundary (st : CacheState) (pid : PatientId)
    (city suffix nm : Str) (items : List Item) (T t : ℚ) :
    (t < T + ttlSeconds →
      cache_get (cache_set st pid city nm items suffix T) pid city suffix t =
        (some { patient := nm, count := items.length, items := items,
                cached_at := T, from_cache := true },
         cache_set st pid city nm items suffix T)) ∧
    (T + ttlSeconds < t →
      (cache_get (cache_set st pid city nm items suffix T) pid city suffix t).1 = none ∧
      lookupC (cache_get (cache_set st pid city nm items suffix T) pid city suffix t).2
        (cacheKeyString pid city suffix) = none) ∧
    (lookupC st (cacheKeyString pid city suffix) = some .malformed →
      (cache_get st pid city suffix t).1 = none ∧
      lookupC (cache_get st pid city suffix t).2 (cacheKeyString pid city suffix) = none) := by
  refine ⟨fun ht => cache_get_after_set st pid pid city suffix city suffix nm items T t rfl (by linarith), fun ht => ?_, fun hm => ?_⟩
  · simp only [cache_get, cache_set, lookupC_insertC_self]
    rw [if_pos (show ttlSeconds < t - T by linarith)]
    exact ⟨by simp, lookupC_eraseC_self _ _⟩
  · simp only [cache_get, hm]
    exact ⟨by simp, lookupC_eraseC_self _ _⟩

/-- C7 witness: concrete fresh read, expired read, and malformed read. -/
theorem cache_ttl_boundary_witness :
    (cache_get (cache_set [] (.pid_int 1) (S "braga") (S "Ana") [] [] 1000)
        (.pid_int 1) (S "braga") [] 2000).1 =
      some { patient := S "Ana", count := 0, items := [], cached_at := 1000,
             from_cache := true } ∧
    (cache_get (cache_set [] (.pid_int 1) (S "braga") (S "Ana") [] [] 1000)
        (.pid_int 1) (S "braga") [] 30000).1 = none ∧
    (cache_get [(cacheKeyString (.pid_int 1) (S "braga") [], .malformed)]
        (.pid_int 1) (S "braga") [] 2000).1 = none := by
  have h := cache_ttl_boundary [] (.pid_int 1) (S "braga") [] (S "Ana") [] 1000 2000
  have h2 := cache_ttl_boundary [] (.pid_int 1) (S "braga") [] (S "Ana") [] 1000 30000
  have h3 := cache_ttl_boundary [(cacheKeyString (.pid_int 1) (S "braga") [], .malformed)]
    (.pid_int 1) (S "braga") [] (S "Ana") [] 1000 2000
  refine ⟨?_, ?_, ?_⟩
  · rw [h.1 (by norm_num [ttlSeconds])]
    rfl
  · exact (h2.2.1 (by norm_num [ttlSeconds])).1
  · exact (h3.2.2 (by
      unfold lookupC
      simp [List.find?])).1

/-- C10: the cache key treats the subject identifier `0` as anonymous: the
key string for `patient_id = 0` equals the key string for
`patient_id = None` (both collapse to the `"unknown"` sentinel before
hashing, and the stored key is the hash of this string), so a fresh entry
stored under one is returned by a read under the other, in both
directions. -/
theorem cache_key_zero_as_anonymous (city suffix : Str) :
    cacheKeyString (.pid_int 0) city suffix = cacheKeyString .pid_none city suffix ∧
    cacheKeyString (.pid_int 0) city suffix = S "unknown" ++ S "_" ++ city ++ suffix ∧
    (∀ (st : CacheState) (nm : Str) (items : List Item) (T t : ℚ),
      t < T + ttlSeconds →
      (cache_get (cache_set st (.pid_int 0) city nm items suffix T)
          .pid_none city suffix t).1 =
        some { patient := nm, count := items.length, items := items,
               cached_at := T, from_cache := true }) ∧
    (∀ (st : CacheState) (nm : Str) (items : List Item) (T t : ℚ),
      t < T + ttlSeconds →
      (cache_get (cache_set st .pid_none city nm items suffix T)
          (.pid_int 0) city suffix t).1 =
        some { patient := nm, count := items.length, items := items,
               cached_at := T, from_cache := true }) := by
  have hk : cacheKeyString (.pid_int 0) city suffix = cacheKeyString .pid_none city suffix := rfl
  refine ⟨hk, rfl, fun st nm items T t ht => ?_, fun st nm items T t ht => ?_⟩
  · rw [cache_get_after_set st (.pid_int 0) .pid_none city suffix city suffix nm items T t
      hk.symm (by linarith)]
  · rw [cache_get_after_set st .pid_none (.pid_int 0) city suffix city suffix nm items T t
      hk (by linarith)]

/-- C10 witness: a concrete store under `0` read back under `None` and
vice versa. -/
theorem cache_key_zero_as_anonymous_witness :
    (cache_get (cache_set [] (.pid_int 0) (S "braga") (S "Ana") [] [] 1000)
        .pid_none (S "braga") [] 2000).1 =
      some { patient := S "Ana", count := 0, items := [], cached_at := 1000,
             from_cache := true } ∧
    (cache_get (cache_set [] .pid_none (S "braga") (S "Ana") [] [] 1000)
        (.pid_int 0) (S "braga") [] 2000).1 =
      some { patient := S "Ana", count := 0, items := [], cached_at := 1000,
             from_cache := true } := by
  have h := cache_key_zero_as_anonymous (S "braga") []
  exact ⟨h.2.2.1 [] (S "Ana") [] 1000 2000 (by norm_num [ttlSeconds]),
         h.2.2.2 [] (S "Ana") [] 1000 2000 (by norm_num [ttlSeconds])⟩

/-! ## Filter lemmas and claims C1, C4 -/

theorem filter_fst_false_of_find_allergen (item : Item) (c : Constraints)
    (h : ∃ a ∈ c.allergies ++ c.intolerances,
      (!a.isEmpty && containsSub a (combinedText item)) = true) :
    (filter_menu_item item c).1 = false := by
  unfold filter_menu_item
  by_cases hd : is_drink item.name item.description
  · simp [hd]
  · have hs : ((c.allergies ++ c.intolerances).find?
        (fun a => !a.isEmpty && containsSub a (combinedText item))).isSome := by
      rw [List.find?_isSome]
      obtain ⟨a, ha, hpa⟩ := h
      exact ⟨a, ha, hpa⟩
    obtain ⟨a, ha⟩ := Option.isSome_iff_exists.mp hs
    simp [hd, ha]

theorem filter_fst_false_of_find_dislike (item : Item) (c : Constraints)
    (h : ∃ d ∈ c.disliked, (!d.isEmpty && containsSub d (combinedText item)) = true) :
    (filter_menu_item item c).1 = false := by
  unfold filter_menu_item
  by_cases hd : is_drink item.name item.description
  · simp [hd]
  · cases hfa : (c.allergies ++ c.intolerances).find?
        (fun a => !a.isEmpty && containsSub a (combinedText item)) with
    | some a => simp [hd, hfa]
    | none =>
      have hs : (c.disliked.find?
          (fun d => !d.isEmpty && containsSub d (combinedText item))).isSome := by
        rw [List.find?_isSome]
        obtain ⟨d, hdm, hpd⟩ := h
        exact ⟨d, hdm, hpd⟩
      obtain ⟨d, hd2⟩ := Option.isSome_iff_exists.mp hs
      simp [hd, hfa, hd2]

/-- C1: for every candidate item and constraint set, any (non-empty)
allergy or intolerance term that occurs in the lower-cased combined
name+description text makes `filter_menu_item` return `passes = false`,
whatever the item scores; likewise for any disliked-food term. -/
theorem filter_vetoes_constraint_terms (item : Item) (c : Constraints) :
    (∀ a ∈ c.allergies ++ c.intolerances, a ≠ [] →
      containsSub a (combinedText item) = true → (filter_menu_item item c).1 = false) ∧
    (∀ d ∈ c.disliked, d ≠ [] →
      containsSub d (combinedText item) = true → (filter_menu_item item c).1 = false) := by
  constructor
  · intro a ha hne hsub
    refine filter_fst_false_of_find_allergen item c ⟨a, ha, ?_⟩
    simp [hsub, List.isEmpty_iff, hne]
  · intro d hd hne hsub
    refine filter_fst_false_of_find_dislike item c ⟨d, hd, ?_⟩
    simp [hsub, List.isEmpty_iff, hne]

/-- C1 witness: a nut allergy vetoes a nut cake, and a disliked food term
vetoes it too. -/
theorem filter_vetoes_constraint_terms_witness :
    (filter_menu_item itemNozes consNozes).1 = false ∧
    (filter_menu_item itemNozes
      { consNozes with allergies := [], disliked := [S "bolo"] }).1 = false := by
  constructor
  · exact (filter_vetoes_constraint_terms itemNozes consNozes).1 (S "nozes")
      (by decide) (by decide) (by decide)
  · exact (filter_vetoes_constraint_terms itemNozes
      { consNozes with allergies := [], disliked := [S "bolo"] }).2 (S "bolo")
      (by decide) (by decide) (by decide)

/-- C4 counterexample: an item tagged `basket_role == "drink"` whose text
contains no drink lexicon word is NOT rejected by `filter_menu_item` (the
claim says every such item is rejected by the filter). -/
theorem filter_ignores_basket_role_tag :
    itemTofu.basket_role = S "drink" ∧
    ¬ (filter_menu_item itemTofu consEmpty).1 = false := by decide

/-- C4 amended: `filter_menu_item` rejects every item whose lower-cased
name+description text contains a word of the fixed bilingual drink
lexicon; the explicit `basket_role == "drink"` tag is not consulted by
`filter_menu_item` but by the API-level `_filter_drinks`, which removes
exactly the items carrying that tag or classified as drinks by text. -/
theorem drink_rejection_split_between_filters :
    (∀ (item : Item) (c : Constraints), is_drink item.name item.description = true →
      (filter_menu_item item c).1 = false) ∧
    (∀ (items : List Item) (i : Item),
      i ∈ filter_drinks items ↔
        i ∈ items ∧ i.basket_role ≠ S "drink" ∧ is_drink i.name i.description = false) := by
  constructor
  · intro item c hd
    simp [filter_menu_item, hd]
  · intro items i
    simp only [filter_drinks, List.mem_filter, Bool.and_eq_true, Bool.not_eq_true',
      beq_eq_false_iff_ne, ne_eq]

/-- C4 witness: a soda is rejected by `filter_menu_item` on its text, and
`_filter_drinks` drops both the soda and the tofu tagged as drink while
keeping a plain item. -/
theorem drink_rejection_split_between_filters_witness :
    (filter_menu_item itemCola consEmpty).1 = false ∧
    ¬ itemTofu ∈ filter_drinks [itemCola, itemTofu, itemNozes] ∧
    itemNozes ∈ filter_drinks [itemCola, itemTofu, itemNozes] := by
  refine ⟨drink_rejection_split_between_filters.1 itemCola consEmpty (by decide), ?_, ?_⟩
  · intro hmem
    have h := (drink_rejection_split_between_filters.2
      [itemCola, itemTofu, itemNozes] itemTofu).mp hmem
    exact absurd h.2.1 (by decide)
  · exact (drink_rejection_split_between_filters.2
      [itemCola, itemTofu, itemNozes] itemNozes).mpr ⟨by decide, by decide, by decide⟩

/-! ## Claim C2: the extractor mutates its input -/

/-- C2 (refuting evaluation): for the patient `pMut`, whose allergies
field stores a non-empty list and a details string, the source appends the
split details parts into the stored list, so the record after
`extract_dietary_constraints` differs from the record before: the claim
that the input is never mutated is violated by the code (the spec calls
the extractor pure and the subject read-only). -/
theorem extract_mutates_patient_record :
    (extract_dietary_constraints pMut).2.food_allergies =
      PyVal.vDict [S "leite", S "ovos"] (S "ovos") ∧
    (extract_dietary_constraints pMut).2 ≠ pMut := by decide

/-! ## Nutrition resolver lemmas and claims C6, C5 -/

theorem per100_none_of_no_results (name : Str) (db : List Food)
    (hres : matchResults name db = []) : get_nutrition_per_100g name db = none := by
  unfold get_nutrition_per_100g
  by_cases hdb : db.isEmpty
  · rw [if_pos hdb]
  · rw [if_neg hdb, hres]
    rfl

/-- C6: when several ingredient tokens were extracted but exactly one
matched the per-100g table and that row's energy is below 80 kcal/100g,
`get_nutrition_per_100g` returns `none`; and when no token matches at all,
the per-100g resolver returns `none`, and so does
`get_nutrition_for_serving` when additionally no known dish matches —
absence, never a zero-valued profile. -/
theorem resolver_absent_rules (name : Str) (db : List Food) :
    (∀ r : Food, 1 < (resolvedIngredients name).length →
      matchResults name db = [r] → r.energy_kcal_100g < 80 →
      get_nutrition_per_100g name db = none) ∧
    (matchResults name db = [] →
      get_nutrition_per_100g name db = none ∧
      ∀ (serving : ℚ) (restaurant : Option Str) (dishes : List Dish),
        (∀ d ∈ dishes, dishMatches d (searchText name restaurant) = false) →
        get_nutrition_for_serving name serving db restaurant dishes = none) := by
  constructor
  · intro r hlen hres henergy
    unfold get_nutrition_per_100g
    by_cases hdb : db.isEmpty
    · rw [if_pos hdb]
    · rw [if_neg hdb, hres]
      rw [if_neg (by simp)]
      rw [if_pos ⟨hlen, rfl, by simpa using henergy⟩]
  · intro hres
    refine ⟨per100_none_of_no_results name db hres, ?_⟩
    intro serving restaurant dishes hdish
    unfold get_nutrition_for_serving
    have hfd : dishes.find? (fun d => dishMatches d (searchText name restaurant)) = none := by
      rw [List.find?_eq_none]
      intro d hdm
      simp [hdish d hdm]
    rw [hfd, per100_none_of_no_results name db hres]

/-- C6 witness: "salada e frango" decomposes into two tokens of which only
the salad (25 kcal/100g) matches, so the per-100g lookup is absent; and a
name matching nothing yields an absent serving-level result. -/
theorem resolver_absent_rules_witness :
    get_nutrition_per_100g (S "salada e frango") dbSalada = none ∧
    get_nutrition_for_serving (S "xyzqw") 200 dbSalada none [] = none := by
  constructor
  · exact (resolver_absent_rules (S "salada e frango") dbSalada).1 foodSalada
      (by decide) (by decide) (by decide)
  · exact ((resolver_absent_rules (S "xyzqw") dbSalada).2 (by decide)).2 200 none []
      (fun d hd => absurd hd (List.not_mem_nil d))

set_option maxRecDepth 8000 in
/-- C5 counterexample: for "arroz" over a one-row table with 130.4
kcal/100g, the serving profile at 100 g carries energy 130 (rounded to the
nearest whole unit), which is not equal to the averaged per-100g energy
130.4 — so the serving profile does not equal the averaged per-100g
values. -/
theorem serving_roundtrip_not_exact :
    (get_nutrition_per_100g (S "arroz") dbArroz).map (fun p => p.energy_kcal_100g) =
      some (652/5) ∧
    (get_nutrition_for_serving (S "arroz") 100 dbArroz none []).map
      (fun r => r.nutriments.energy_kcal) = some 130 ∧
    (130 : ℚ) ≠ 652/5 :=
  of_decide_eq_true (by with_unfolding_all rfl)

/-- C5 amended: for a food name resolved through ingredient decomposition
(no known-dish match), `get_nutrition_for_serving` at `serving_g = 100`
yields the averaged per-100g values after the serving rounding — energy
rounded to the nearest whole unit, macro grams to one decimal (the scale
factor `100 / 100 = 1` itself changes nothing). -/
theorem serving_at_100g_equals_rounded_per100 (name : Str) (db : List Food)
    (restaurant : Option Str) (dishes : List Dish) (p : Per100)
    (hdish : ∀ d ∈ dishes, dishMatches d (searchText name restaurant) = false)
    (hp : get_nutrition_per_100g name db = some p) :
    get_nutrition_for_serving name 100 db restaurant dishes = some
      { product_name := p.product_name,
        nutriments :=
          { energy_kcal := roundQ p.energy_kcal_100g 0,
            protein := roundQ p.proteins_100g 1,
            carbohydrate := roundQ p.carbohydrates_100g 1,
            fat := roundQ p.fat_100g 1,
            fiber := roundQ p.fiber_100g 1 },
        source := S "local_db" } := by
  unfold get_nutrition_for_serving
  have hfd : dishes.find? (fun d => dishMatches d (searchText name restaurant)) = none := by
    rw [List.find?_eq_none]
    intro d hdm
    simp [hdish d hdm]
  rw [hfd, hp]
  norm_num

set_option maxRecDepth 8000 in
/-- C5 witness: "arroz" over the 130.4 kcal/100g table at 100 g serving. -/
theorem serving_at_100g_equals_rounded_per100_witness :
    get_nutrition_for_serving (S "arroz") 100 dbArroz none [] = some
      { product_name := S "arroz",
        nutriments :=
          { energy_kcal := 130, protein := 5/2, carbohydrate := 141/5,
            fat := 3/10, fiber := 2/5 },
        source := S "local_db" } := by
  have h := serving_at_100g_equals_rounded_per100 (S "arroz") dbArroz none []
    { energy_kcal_100g := 652/5, proteins_100g := 5/2, fat_100g := 3/10,
      carbohydrates_100g := 141/5, fiber_100g := 2/5, product_name := S "arroz" }
    (fun d hd => absurd hd (List.not_mem_nil d))
    (of_decide_eq_true (by with_unfolding_all rfl))
  rw [h]
  exact of_decide_eq_true (by with_unfolding_all rfl)

/-! ## Character and trim lemmas (for claim C3) -/

theorem char_toNat_ofNat_valid {n : ℕ} (h : n.isValidChar) : (Char.ofNat n).toNat = n := by
  unfold Char.ofNat
  rw [dif_pos h]
  rfl

theorem char_eq_iff_toNat {a b : Char} : a = b ↔ a.toNat = b.toNat := by
  constructor
  · intro h
    rw [h]
  · intro h
    have h2 := congrArg Char.ofNat h
    rwa [Char.ofNat_toNat, Char.ofNat_toNat] at h2

theorem isWhitespace_iff (c : Char) :
    c.isWhitespace = true ↔ c.toNat = 32 ∨ c.toNat = 9 ∨ c.toNat = 13 ∨ c.toNat = 10 := by
  unfold Char.isWhitespace
  simp only [Bool.or_eq_true, decide_eq_true_eq]
  rw [@char_eq_iff_toNat c ' ', @char_eq_iff_toNat c '\t', @char_eq_iff_toNat c '\r',
    @char_eq_iff_toNat c '\n']
  have h32 : Char.toNat ' ' = 32 := rfl
  have h9 : Char.toNat '\t' = 9 := rfl
  have h13 : Char.toNat '\r' = 13 := rfl
  have h10 : Char.toNat '\n' = 10 := rfl
  rw [h32, h9, h13, h10]
  tauto

theorem toLower_eq_of_not_upper {c : Char} (h : ¬(65 ≤ c.toNat ∧ c.toNat ≤ 90)) :
    c.toLower = c := by
  unfold Char.toLower
  rw [if_neg h]

theorem toLower_toNat_of_upper {c : Char} (h : 65 ≤ c.toNat ∧ c.toNat ≤ 90) :
    c.toLower.toNat = c.toNat + 32 := by
  unfold Char.toLower
  rw [if_pos h]
  exact char_toNat_ofNat_valid (Or.inl (by omega))

theorem toLower_toLower (c : Char) : c.toLower.toLower = c.toLower := by
  by_cases h : 65 ≤ c.toNat ∧ c.toNat ≤ 90
  · have h2 := toLower_toNat_of_upper h
    apply toLower_eq_of_not_upper
    rw [h2]
    omega
  · rw [toLower_eq_of_not_upper h, toLower_eq_of_not_upper h]

theorem isWhitespace_toLower (c : Char) : c.toLower.isWhitespace = c.isWhitespace := by
  by_cases h : 65 ≤ c.toNat ∧ c.toNat ≤ 90
  · have h2 := toLower_toNat_of_upper h
    have hc : c.isWhitespace = false := by
      cases hx : c.isWhitespace
      · rfl
      · have := (isWhitespace_iff c).mp hx
        omega
    have hl : c.toLower.isWhitespace = false := by
      cases hx : c.toLower.isWhitespace
      · rfl
      · have := (isWhitespace_iff c.toLower).mp hx
        omega
    rw [hc, hl]
  · rw [toLower_eq_of_not_upper h]

theorem lowerStr_lowerStr (s : Str) : lowerStr (lowerStr s) = lowerStr s := by
  unfold lowerStr
  rw [List.map_map]
  exact List.map_congr_left (fun a _ => toLower_toLower a)

theorem lowerStr_eq_nil_iff (s : Str) : lowerStr s = [] ↔ s = [] := by
  simp [lowerStr]

theorem dropWhile_head_not (p : Char → Bool) (s : Str) :
    s.dropWhile p = [] ∨ ∃ c rest, s.dropWhile p = c :: rest ∧ p c = false := by
  induction s with
  | nil => exact Or.inl rfl
  | cons a t ih =>
    rw [List.dropWhile_cons]
    by_cases h : p a
    · simpa [h] using ih
    · exact Or.inr ⟨a, t, by simp [h], by simpa using h⟩

theorem rstrip_idem (s : Str) : rstrip (rstrip s) = rstrip s := by
  induction s with
  | nil => rfl
  | cons c rest ih =>
    cases h : rstrip rest with
    | nil =>
      by_cases hc : c.isWhitespace
      · show rstrip (rstrip (c :: rest)) = rstrip (c :: rest)
        rw [rstrip, h]
        simp only [hc, if_true]
        rfl
      · show rstrip (rstrip (c :: rest)) = rstrip (c :: rest)
        rw [rstrip, h]
        simp only [hc, if_false, Bool.false_eq_true]
        rw [rstrip]
        simp [hc, rstrip]
    | cons r rs =>
      have ih2 : rstrip (r :: rs) = r :: rs := by
        rw [← h]
        exact ih
      show rstrip (rstrip (c :: rest)) = rstrip (c :: rest)
      rw [rstrip, h]
      rw [rstrip, ih2]

theorem lstrip_rstrip_of_head (s : Str)
    (h : s = [] ∨ ∃ c rest, s = c :: rest ∧ c.isWhitespace = false) :
    lstrip (rstrip s) = rstrip s := by
  rcases h with rfl | ⟨c, rest, rfl, hc⟩
  · rfl
  · rw [rstrip]
    cases h2 : rstrip rest with
    | nil =>
      rw [if_neg (by simp [hc])]
      simp [lstrip, List.dropWhile_cons, hc]
    | cons r rs =>
      simp [lstrip, List.dropWhile_cons, hc]

theorem trim_trim (s : Str) : trim (trim s) = trim s := by
  unfold trim
  rw [lstrip_rstrip_of_head (lstrip s) (dropWhile_head_not Char.isWhitespace s)]
  exact rstrip_idem _

theorem lstrip_lowerStr (s : Str) : lstrip (lowerStr s) = lowerStr (lstrip s) := by
  unfold lstrip lowerStr
  have hp : (Char.isWhitespace ∘ Char.toLower) = Char.isWhitespace :=
    funext isWhitespace_toLower
  rw [List.dropWhile_map, hp]

theorem rstrip_lowerStr (s : Str) : rstrip (lowerStr s) = lowerStr (rstrip s) := by
  induction s with
  | nil => rfl
  | cons c rest ih =>
    show rstrip (Char.toLower c :: lowerStr rest) = lowerStr (rstrip (c :: rest))
    rw [rstrip, ih]
    cases h : rstrip rest with
    | nil =>
      simp only [lowerStr, List.map_nil]
      rw [isWhitespace_toLower c]
      rw [rstrip, h]
      by_cases hc : c.isWhitespace
      · simp [hc]
      · simp [hc, lowerStr]
    | cons r rs =>
      simp only [lowerStr, List.map_cons]
      rw [rstrip, h]
      rfl

theorem trim_lowerStr (s : Str) : trim (lowerStr s) = lowerStr (trim s) := by
  unfold trim
  rw [lstrip_lowerStr, rstrip_lowerStr]

/-! ## Claim C3: constraint-set entry invariants -/

theorem entry_norm (q : Str) (hq : trim q ≠ []) :
    lowerStr (trim q) ≠ [] ∧ trim (lowerStr (trim q)) = lowerStr (trim q) ∧
      lowerStr (lowerStr (trim q)) = lowerStr (trim q) := by
  refine ⟨?_, ?_, lowerStr_lowerStr _⟩
  · intro hx
    exact hq ((lowerStr_eq_nil_iff (trim q)).mp hx)
  · rw [trim_lowerStr, trim_trim]

theorem safe_list_entry_props (v : PyVal) (hbf : blankFreeValB v = true) :
    ∀ e ∈ (safe_list v).1, e ≠ [] ∧ trim e = e ∧ lowerStr e = e := by
  intro e he
  cases v with
  | vNone => simp [safe_list] at he
  | vStr s =>
    simp only [safe_list, List.mem_map, List.mem_filter] at he
    obtain ⟨q, ⟨_, hq2⟩, rfl⟩ := he
    exact entry_norm q (by simpa using hq2)
  | vDict lst details =>
    simp only [safe_list, List.mem_map, List.mem_filter, List.mem_append] at he
    obtain ⟨q, ⟨hq1, hq2⟩, rfl⟩ := he
    have hqne : q ≠ [] := by simpa using hq2
    have htrim : trim q ≠ [] := by
      rcases hq1 with hq1 | hq1
      · -- entry of the stored list: the blank-free hypothesis applies
        have hall : ∀ x ∈ lst, x = [] ∨ ¬ trim x = [] := by
          simpa [blankFreeValB] using hbf
        rcases hall q hq1 with hb | hb
        · exact absurd hb hqne
        · exact hb
      · -- entry split out of the details string: already trimmed
        by_cases hcond : trim details ≠ [] ∧ lowerStr (trim details) ∉ noneSentinels
        · rw [if_pos hcond] at hq1
          simp only [List.mem_filter, List.mem_map] at hq1
          obtain ⟨⟨piece, _, rfl⟩, _⟩ := hq1
          rw [trim_trim]
          exact hqne
        · rw [if_neg hcond] at hq1
          exact absurd hq1 (List.not_mem_nil q)
    exact entry_norm q htrim

theorem safe_list_sentinel_details (lst : List Str) (d : Str)
    (hd : lowerStr (trim d) ∈ noneSentinels) :
    (safe_list (.vDict lst d)).1 = (safe_list (.vDict lst [])).1 := by
  simp only [safe_list]
  rw [if_neg (fun hcon => hcon.2 hd), if_neg (by simp [trim, lstrip, rstrip])]

/-- C3 counterexample: for a patient whose structured allergies list holds
the whitespace-only entry `" "`, the extracted constraint set contains the
empty string as an entry, refuting the claim that every entry is
non-empty. -/
theorem constraint_entries_nonempty_fails :
    ¬ ∀ e ∈ allEntries (extract_dietary_constraints pBlank).1, e ≠ [] := by
  intro h
  exact (h [] (by decide)) rfl

/-- C3 amended: for every patient record whose structured list fields hold
no non-empty whitespace-only entry, every entry of every extracted
constraint list is a non-empty, trimmed, lower-case string (a whitespace-
only stored entry would instead yield the empty string); and a details
string that strips and lower-cases to a canonical "none" sentinel
contributes no entries (the result equals that for empty details). -/
theorem constraint_entries_normalized (p : Patient) (hbf : blankFreeB p = true) :
    (∀ e ∈ allEntries (extract_dietary_constraints p).1,
      e ≠ [] ∧ trim e = e ∧ lowerStr e = e) ∧
    (∀ (lst : List Str) (d : Str), lowerStr (trim d) ∈ noneSentinels →
      (safe_list (.vDict lst d)).1 = (safe_list (.vDict lst [])).1) := by
  refine ⟨?_, safe_list_sentinel_details⟩
  have hb : blankFreeValB p.food_allergies = true ∧ blankFreeValB p.food_intolerances = true ∧
      blankFreeValB p.disliked_foods = true ∧ blankFreeValB p.favorite_foods = true ∧
      blankFreeValB p.diet_types = true := by
    unfold blankFreeB at hbf
    simp only [Bool.and_eq_true] at hbf
    exact ⟨hbf.1.1.1.1, hbf.1.1.1.2, hbf.1.1.2, hbf.1.2, hbf.2⟩
  intro e he
  unfold allEntries extract_dietary_constraints at he
  simp only [List.mem_append] at he
  rcases he with ((((h | h) | h) | h) | h)
  · exact safe_list_entry_props _ hb.1 e h
  · exact safe_list_entry_props _ hb.2.1 e h
  · by_cases ht : pyTruthy p.disliked_foods
    · rw [if_pos ht] at h
      exact safe_list_entry_props _ hb.2.2.1 e h
    · rw [if_neg ht] at h
      exact absurd h (List.not_mem_nil e)
  · by_cases ht : pyTruthy p.favorite_foods
    · rw [if_pos ht] at h
      exact safe_list_entry_props _ hb.2.2.2.1 e h
    · rw [if_neg ht] at h
      exact absurd h (List.not_mem_nil e)
  · exact safe_list_entry_props _ hb.2.2.2.2 e h

/-- C3 witness: a concrete well-formed patient record. -/
theorem constraint_entries_normalized_witness :
    blankFreeB pGood = true ∧
    ∀ e ∈ allEntries (extract_dietary_constraints pGood).1,
      e ≠ [] ∧ trim e = e ∧ lowerStr e = e :=
  ⟨by decide, (constraint_entries_normalized pGood (by decide)).1⟩

/-! ## Claim C8: the deduplicating ranker is idempotent -/

theorem leScore_trans : ∀ (a b c : Item), leScore a b → leScore b c → leScore a c := by
  intro a b c h1 h2
  simp only [leScore, decide_eq_true_eq] at h1 h2 ⊢
  exact le_trans h2 h1

theorem leScore_total : ∀ (a b : Item), leScore a b || leScore b a := by
  intro a b
  simp only [leScore, Bool.or_eq_true, decide_eq_true_eq]
  exact le_total b.score a.score

theorem dedupPass_sublist (l : List Item) (seen : List (Str × Str)) :
    (dedupPass seen l).Sublist l := by
  induction l generalizing seen with
  | nil => simp [dedupPass]
  | cons x xs ih =>
    rw [dedupPass]
    split
    · exact (ih seen).cons x
    · exact (ih _).cons₂ x

theorem dedupPass_mem_props (l : List Item) (seen : List (Str × Str)) (x : Item)
    (hx : x ∈ dedupPass seen l) :
    keyNR x ∉ seen ∧ ¬ (keyNR x).1.length < 3 := by
  induction l generalizing seen with
  | nil => simp [dedupPass] at hx
  | cons a t ih =>
    rw [dedupPass] at hx
    by_cases h : keyNR a ∈ seen ∨ (keyNR a).1.length < 3
    · rw [if_pos h] at hx
      exact ih seen hx
    · rw [if_neg h] at hx
      push_neg at h
      rcases List.mem_cons.mp hx with rfl | hx2
      · exact ⟨h.1, by omega⟩
      · have := ih (keyNR a :: seen) hx2
        exact ⟨fun hmem => this.1 (List.mem_cons_of_mem _ hmem), this.2⟩

theorem dedupPass_pairwise (l : List Item) (seen : List (Str × Str)) :
    (dedupPass seen l).Pairwise (fun a b => keyNR a ≠ keyNR b) := by
  induction l generalizing seen with
  | nil => simp [dedupPass]
  | cons a t ih =>
    rw [dedupPass]
    split
    · exact ih seen
    · refine List.Pairwise.cons ?_ (ih _)
      intro y hy hkey
      have := (dedupPass_mem_props t (keyNR a :: seen) y hy).1
      exact this (by rw [← hkey]; exact List.mem_cons_self _ _)

theorem dedupPass_eq_self (l : List Item) (seen : List (Str × Str))
    (hmem : ∀ x ∈ l, keyNR x ∉ seen ∧ ¬ (keyNR x).1.length < 3)
    (hpair : l.Pairwise (fun a b => keyNR a ≠ keyNR b)) :
    dedupPass seen l = l := by
  induction l generalizing seen with
  | nil => rfl
  | cons a t ih =>
    have ha := hmem a (List.mem_cons_self a t)
    rw [dedupPass, if_neg (by tauto)]
    congr 1
    refine ih (keyNR a :: seen) ?_ (List.Pairwise.sublist (List.sublist_cons_self a t) hpair)
    intro x hx
    refine ⟨?_, (hmem x (List.mem_cons_of_mem a hx)).2⟩
    intro hseen
    rcases List.mem_cons.mp hseen with hk | hk
    · exact (List.pairwise_cons.mp hpair).1 x hx hk.symm
    · exact (hmem x (List.mem_cons_of_mem a hx)).1 hk

/-- C8: the deduplicating ranker (stable sort by descending score, then
dedup by (name, restaurant) identity, dropping short names) is idempotent:
running it on its own output returns the identical ordered list. -/
theorem rank_items_idempotent (items : List Item) :
    rank_items (rank_items items) = rank_items items := by
  have hsorted : (rank_items items).Pairwise (fun a b => leScore a b = true) :=
    List.Pairwise.sublist (dedupPass_sublist _ _)
      (List.sorted_mergeSort leScore_trans leScore_total items)
  show dedupPass [] ((rank_items items).mergeSort leScore) = rank_items items
  rw [List.mergeSort_of_sorted hsorted]
  refine dedupPass_eq_self _ _ ?_ (dedupPass_pairwise _ _)
  intro x hx
  exact ⟨List.not_mem_nil _, (dedupPass_mem_props _ _ x hx).2⟩

/-! ## Claim C9: the basket composer never repeats an identity -/

theorem itemKey_withRole (x : Item) (r : Str) : itemKey (withRole x r) = itemKey x := rfl

theorem pick_one_none_used {items : List Item} {used u : List Str} {cat : Str}
    (h : pick_one items used cat = (none, u)) : u = used := by
  unfold pick_one at h
  cases hh : ((items.filter (fun i => item_matches_category i (basket_meal_structure cat)
      && !(decide (itemKey i ∈ used)))).mergeSort leScore).head? with
  | none =>
    rw [hh] at h
    exact (Prod.mk.injEq _ _ _ _ ▸ h).2.symm
  | some chosen =>
    rw [hh] at h
    exact absurd (Prod.mk.injEq _ _ _ _ ▸ h).1 (by simp)

theorem pick_one_some_spec {items : List Item} {used u : List Str} {cat : Str} {x : Item}
    (h : pick_one items used cat = (some x, u)) :
    itemKey x ∉ used ∧ u = itemKey x :: used := by
  unfold pick_one at h
  cases hh : ((items.filter (fun i => item_matches_category i (basket_meal_structure cat)
      && !(decide (itemKey i ∈ used)))).mergeSort leScore).head? with
  | none =>
    rw [hh] at h
    exact absurd (Prod.mk.injEq _ _ _ _ ▸ h).1 (by simp)
  | some chosen =>
    rw [hh] at h
    have h1 := (Prod.mk.injEq _ _ _ _ ▸ h).1
    have h2 := (Prod.mk.injEq _ _ _ _ ▸ h).2
    have hx : chosen = x := Option.some.inj h1
    subst hx
    obtain ⟨ys, hys⟩ := List.head?_eq_some_iff.mp hh
    have hmem : chosen ∈ (items.filter (fun i =>
        item_matches_category i (basket_meal_structure cat)
        && !(decide (itemKey i ∈ used)))).mergeSort leScore := by
      rw [hys]
      exact List.mem_cons_self _ _
    rw [List.mem_mergeSort] at hmem
    have hpred := (List.mem_filter.mp hmem).2
    simp only [Bool.and_eq_true, Bool.not_eq_true', decide_eq_false_iff_not] at hpred
    exact ⟨hpred.2, h2.symm⟩

/-- Invariant carried through the composer: basket identities are pairwise
distinct and all of them are registered in the used-names set. -/
def GoodPair (st : List Item × List Str) : Prop :=
  st.1.Pairwise (fun a b => itemKey a ≠ itemKey b) ∧ ∀ b ∈ st.1, itemKey b ∈ st.2

theorem goodPair_append {basket : List Item} {used : List Str} {x : Item} {r : Str}
    (hg : GoodPair (basket, used)) (hx : itemKey x ∉ used) :
    GoodPair (basket ++ [withRole x r], itemKey x :: used) := by
  constructor
  · rw [List.pairwise_append]
    refine ⟨hg.1, List.pairwise_singleton _ _, ?_⟩
    intro a ha b hb
    rw [List.mem_singleton.mp hb, itemKey_withRole]
    intro hkey
    exact hx (hkey ▸ hg.2 a ha)
  · intro b hb
    rcases List.mem_append.mp hb with hb | hb
    · exact List.mem_cons_of_mem _ (hg.2 b hb)
    · rw [List.mem_singleton.mp hb, itemKey_withRole]
      exact List.mem_cons_self _ _

theorem goodPair_mono {basket : List Item} {used u : List Str}
    (hg : GoodPair (basket, used)) (hsub : ∀ k ∈ used, k ∈ u) :
    GoodPair (basket, u) :=
  ⟨hg.1, fun b hb => hsub _ (hg.2 b hb)⟩

theorem roleStep_good (items : List Item) (st : List Item × List Str) (cat role : Str)
    (hg : GoodPair st) : GoodPair (roleStep items st cat role) ∧
      ∀ k ∈ st.2, k ∈ (roleStep items st cat role).2 := by
  unfold roleStep
  cases hp : pick_one items st.2 cat with
  | mk o u =>
    cases o with
    | none =>
      have := pick_one_none_used hp
      subst this
      exact ⟨⟨hg.1, hg.2⟩, fun k hk => hk⟩
    | some x =>
      obtain ⟨hnot, hu⟩ := pick_one_some_spec hp
      subst hu
      exact ⟨goodPair_append ⟨hg.1, hg.2⟩ hnot, fun k hk => List.mem_cons_of_mem _ hk⟩

theorem composeStage123_good (items : List Item) :
    GoodPair (composeStage123 items) := by
  unfold composeStage123
  have h0 : GoodPair (([] : List Item), ([] : List Str)) :=
    ⟨List.Pairwise.nil, fun b hb => absurd hb (List.not_mem_nil b)⟩
  have h1 := roleStep_good items _ (S "protein") (S "protein") h0
  have h2 := roleStep_good items _ (S "carbohydrate") (S "carbohydrate") h1.1
  exact (roleStep_good items _ (S "vegetable") (S "vegetable") h2.1).1

theorem vegOrFruitPick_none_used {items : List Item} {used u : List Str}
    (h : vegOrFruitPick items used = (none, u)) : u = used := by
  unfold vegOrFruitPick at h
  cases hp : pick_one items used (S "vegetable") with
  | mk o u1 =>
    cases o with
    | none =>
      have hu1 := pick_one_none_used hp
      subst hu1
      rw [hp] at h
      exact pick_one_none_used h
    | some x =>
      rw [hp] at h
      exact absurd (Prod.mk.injEq _ _ _ _ ▸ h).1 (by simp)

theorem vegOrFruitPick_some_spec {items : List Item} {used u : List Str} {x : Item}
    (h : vegOrFruitPick items used = (some x, u)) :
    itemKey x ∉ used ∧ u = itemKey x :: used := by
  unfold vegOrFruitPick at h
  cases hp : pick_one items used (S "vegetable") with
  | mk o u1 =>
    cases o with
    | none =>
      have hu1 := pick_one_none_used hp
      subst hu1
      rw [hp] at h
      exact pick_one_some_spec h
    | some y =>
      rw [hp] at h
      have h1 := (Prod.mk.injEq _ _ _ _ ▸ h).1
      have h2 := (Prod.mk.injEq _ _ _ _ ▸ h).2
      have hy : y = x := Option.some.inj h1
      subst hy
      obtain ⟨hnot, hu⟩ := pick_one_some_spec hp
      exact ⟨hnot, h2 ▸ hu⟩

theorem composeStage4_good (items : List Item) (m : ℕ) :
    GoodPair (composeStage4 items m) := by
  unfold composeStage4
  have hg := composeStage123_good items
  cases hv : vegOrFruitPick items (composeStage123 items).2 with
  | mk o u =>
    cases o with
    | none =>
      have := vegOrFruitPick_none_used hv
      subst this
      exact hg
    | some x =>
      obtain ⟨hnot, hu⟩ := vegOrFruitPick_some_spec hv
      subst hu
      dsimp only
      by_cases hlen : (composeStage123 items).1.length < m
      · rw [if_pos hlen]
        exact goodPair_append ⟨hg.1, hg.2⟩ hnot
      · rw [if_neg hlen]
        exact goodPair_mono hg (fun k hk => List.mem_cons_of_mem _ hk)

theorem topUp_pairwise (l : List Item) (used : List Str) (basket : List Item) (m : ℕ)
    (hg : GoodPair (basket, used)) :
    (topUp used basket m l).1.Pairwise (fun a b => itemKey a ≠ itemKey b) := by
  induction l generalizing used basket with
  | nil => exact hg.1
  | cons x xs ih =>
    rw [topUp]
    by_cases hfull : m ≤ basket.length
    · rw [if_pos hfull]
      exact hg.1
    · rw [if_neg hfull]
      by_cases hnew : itemKey x ≠ [] ∧ itemKey x ∉ used
      · rw [if_pos hnew]
        exact ih _ _ (goodPair_append hg hnew.2)
      · rw [if_neg hnew]
        exact ih _ _ hg

theorem pick_one_nil (used : List Str) (cat : Str) :
    pick_one [] used cat = (none, used) := by
  unfold pick_one
  rw [List.filter_nil, List.mergeSort_nil]
  rfl

theorem roleStep_nil (st : List Item × List Str) (cat role : Str) :
    roleStep [] st cat role = st := by
  unfold roleStep
  rw [pick_one_nil]

theorem composeStage123_nil : composeStage123 [] = ([], []) := by
  unfold composeStage123
  rw [roleStep_nil, roleStep_nil, roleStep_nil]

theorem vegOrFruitPick_nil (used : List Str) : vegOrFruitPick [] used = (none, used) := by
  unfold vegOrFruitPick
  rw [pick_one_nil]
  dsimp only
  rw [pick_one_nil]

theorem composeStage4_nil (m : ℕ) : composeStage4 [] m = ([], []) := by
  unfold composeStage4
  rw [composeStage123_nil]
  dsimp only
  rw [vegOrFruitPick_nil]

theorem compose_healthy_basket_nil (c : Constraints) (m : ℕ) :
    compose_healthy_basket [] c m = [] := by
  unfold compose_healthy_basket
  rw [composeStage4_nil]
  dsimp only
  rw [if_pos (by decide), List.mergeSort_nil]
  rfl

/-- C9: `compose_healthy_basket` never returns two basket items (in
particular, no two of the canonical protein/carbohydrate/vegetable roles)
sharing the same lower-cased trimmed name identity; and on an empty input
pool it returns an empty basket. -/
theorem compose_basket_no_duplicate_identity (items : List Item) (c : Constraints)
    (m : ℕ) :
    (compose_healthy_basket items c m).Pairwise (fun a b => itemKey a ≠ itemKey b) ∧
    compose_healthy_basket [] c m = [] := by
  constructor
  · unfold compose_healthy_basket
    by_cases h3 : (composeStage4 items m).1.length < 3
    · rw [if_pos h3]
      exact topUp_pairwise _ _ _ _ (composeStage4_good items m)
    · rw [if_neg h3]
      exact (composeStage4_good items m).1
  · exact compose_healthy_basket_nil c m
